import Mathlib

/-!
Verification of the paired knockout-certificate simulation engine
(simulation.py, simulate_pair_strategy) and the derived display
constants of the presentation layer (streamlit_app.py, main).

The embedding is shallow: a daily bar is a record of a date and the
close/high/low prices (the engine reads no other columns), prices are
rationals, and the pandas frame is a list of bars.  The engine first
converts the Date column, sorts ascending by date, filters to dates at
or after the start date, and then runs the day-by-day recurrence; the
recurrence is embedded as an explicit recursion `simLoop` carrying the
previous close, the previous leg values and the two active flags,
exactly as the Python loop carries them across iterations.
-/

/-- One row of the historical market data: the engine reads the
columns Date, Close, High and Low. -/
structure DailyBar where
  date : Int
  close : ℚ
  high : ℚ
  low : ℚ
  deriving DecidableEq, Repr

/-- The keyword parameters of `simulate_pair_strategy`. -/
structure SimParams where
  start_date : Int
  multiplier : ℚ
  long_barrier_pct : ℚ
  short_barrier_pct : ℚ
  initial_investment : ℚ
  entry_cost : ℚ
  spread : ℚ
  deriving DecidableEq, Repr

/-- One row of the returned frame: Date, Long Value, Short Value,
Combined Value. -/
structure Row where
  date : Int
  longValue : ℚ
  shortValue : ℚ
  combinedValue : ℚ
  deriving DecidableEq, Repr

/-- Default bar used as the `getD` fallback. -/
def dBar : DailyBar := ⟨0, 0, 0, 0⟩

/-- Default row used as the `getD` fallback. -/
def dRow : Row := ⟨0, 0, 0, 0⟩

/-- Ordering of bars by date, as used by the sort on the Date column. -/
def dateLe (a b : DailyBar) : Prop := a.date ≤ b.date

/-- Strict ordering of bars by date. -/
def dateLt (a b : DailyBar) : Prop := a.date < b.date

instance : DecidableRel dateLe := fun a b => Int.decLe a.date b.date

instance : IsTotal DailyBar dateLe := ⟨fun a b => Int.le_total a.date b.date⟩

instance : IsTrans DailyBar dateLe := ⟨fun _ _ _ h1 h2 => Int.le_trans h1 h2⟩

instance : IsAntisymm DailyBar dateLt :=
  ⟨fun _ _ h1 h2 => absurd h2 (not_lt.mpr (le_of_lt h1))⟩

/-- Embeds `df.sort_values` on the Date column: sort ascending by date. -/
def sortBars (df : List DailyBar) : List DailyBar :=
  List.insertionSort dateLe df

/-- Embeds the filter `sim_df = df[df.Date >= start_date_dt]`: the sorted
bars from the start date on. -/
def simBars (df : List DailyBar) (p : SimParams) : List DailyBar :=
  (sortBars df).filter fun b => decide (p.start_date ≤ b.date)

/-- Embeds `net_investment = initial_investment - (entry_cost + spread)`. -/
def net_investment (p : SimParams) : ℚ :=
  p.initial_investment - (p.entry_cost + p.spread)

/-- Embeds `entry_price = sim_df.iloc[0].Close`. -/
def entry_price (df : List DailyBar) (p : SimParams) : ℚ :=
  ((simBars df p).headD dBar).close

/-- Embeds `long_knockout_level = entry_price * (1 - long_barrier_pct)`. -/
def long_knockout_level (df : List DailyBar) (p : SimParams) : ℚ :=
  entry_price df p * (1 - p.long_barrier_pct)

/-- Embeds `short_knockout_level = entry_price * (1 + short_barrier_pct)`. -/
def short_knockout_level (df : List DailyBar) (p : SimParams) : ℚ :=
  entry_price df p * (1 + p.short_barrier_pct)

/-- The body of the loop `for i in range(1, len(sim_df))`: one recursive
step per remaining bar, carrying the previous close, both previous leg
values and both active flags, exactly the state the Python loop carries
from iteration `i - 1` to iteration `i`. -/
def simLoop (multiplier longKO shortKO prevClose prevLong prevShort : ℚ)
    (longActive shortActive : Bool) : List DailyBar → List Row
  | [] => []
  | b :: bs =>
    let dailyReturn : ℚ := b.close / prevClose - 1
    let longRes : ℚ × Bool :=
      if longActive then
        if b.low ≤ longKO then (0, false)
        else (prevLong * (1 + multiplier * dailyReturn), true)
      else (0, false)
    let shortRes : ℚ × Bool :=
      if shortActive then
        if shortKO ≤ b.high then (0, false)
        else (prevShort * (1 - multiplier * dailyReturn), true)
      else (0, false)
    ⟨b.date, longRes.1, shortRes.1, longRes.1 + shortRes.1⟩ ::
      simLoop multiplier longKO shortKO b.close longRes.1 shortRes.1
        longRes.2 shortRes.2 bs

/-- Embeds `simulate_pair_strategy`: sort, filter from the start date,
fail when nothing is left, otherwise initialise both legs to the net
investment on day 0 and run the day-by-day recurrence. -/
def simulate_pair_strategy (df : List DailyBar) (p : SimParams) :
    Except String (List Row) :=
  match simBars df p with
  | [] => Except.error "No data available from the specified start date."
  | b0 :: rest =>
    let netInv := net_investment p
    let longKO := b0.close * (1 - p.long_barrier_pct)
    let shortKO := b0.close * (1 + p.short_barrier_pct)
    Except.ok (⟨b0.date, netInv, netInv, netInv * 2⟩ ::
      simLoop p.multiplier longKO shortKO b0.close netInv netInv true true rest)

/-- The rows of a successful run (empty list on error), for stating
concrete facts without an existential. -/
def okRows (e : Except String (List Row)) : List Row :=
  match e with
  | Except.ok rows => rows
  | Except.error _ => []

/-- Embeds `long_knockout_norm = initial_investment * (1 - long_barrier_pct)`
(streamlit_app.py, display constant). -/
def long_knockout_norm (initial_investment long_barrier_pct : ℚ) : ℚ :=
  initial_investment * (1 - long_barrier_pct)

/-- Embeds `short_knockout_norm = initial_investment * (1 + short_barrier_pct)`
(streamlit_app.py, display constant). -/
def short_knockout_norm (initial_investment short_barrier_pct : ℚ) : ℚ :=
  initial_investment * (1 + short_barrier_pct)

/-- Embeds `in_the_money_value = 2 * (initial_investment + (entry_cost + spread))`
(streamlit_app.py, display constant). -/
def in_the_money_value (initial_investment entry_cost spread : ℚ) : ℚ :=
  2 * (initial_investment + (entry_cost + spread))

/-- The close the loop divides by at step `i`: the pre-loop close for the
first step, the previous bar close afterwards. -/
def prevCloseAt (c : ℚ) (bs : List DailyBar) : Nat → ℚ
  | 0 => c
  | i + 1 => (bs.getD i dBar).close

/-- A Date cell of the caller frame: either still in the raw textual form
the caller loaded, or already converted by `pd.to_datetime`; `val` is
the day it denotes either way. -/
inductive RDate where
  | raw : Int → RDate
  | parsed : Int → RDate
  deriving DecidableEq, Repr

/-- The day an `RDate` denotes. -/
def RDate.val : RDate → Int
  | raw n => n
  | parsed n => n

/-- Embeds `pd.to_datetime` on one Date cell: convert, keeping the day. -/
def parseDate : RDate → RDate
  | RDate.raw n => RDate.parsed n
  | RDate.parsed n => RDate.parsed n

/-- A row of the caller frame before the engine normalises dates. -/
structure RawBar where
  date : RDate
  close : ℚ
  high : ℚ
  low : ℚ
  deriving DecidableEq, Repr

/-- The in-place Date-column assignment of the engine applied to one row
of the caller frame. -/
def parseBar (b : RawBar) : RawBar := ⟨parseDate b.date, b.close, b.high, b.low⟩

/-- Read a caller row as the value-level bar the engine computes with. -/
def toDailyBar (b : RawBar) : DailyBar := ⟨b.date.val, b.close, b.high, b.low⟩

/-- The call as the caller observes it: the engine first writes the
converted Date column back into the caller frame in place and then
simulates, so the call yields the returned frame together with the state
of the caller input frame after the call. -/
def simulate_pair_strategy_call (df : List RawBar) (p : SimParams) :
    Except String (List Row) × List RawBar :=
  (simulate_pair_strategy (df.map toDailyBar) p, df.map parseBar)

/-- Entry bar of the concrete runs: entry close 100. -/
def cexBar0 : DailyBar := ⟨0, 100, 100, 100⟩

/-- Second day of the negative-value run: the close drops 15% while the
low stays far above the 50% knockout barrier. -/
def cexBar1 : DailyBar := ⟨1, 85, 85, 85⟩

/-- Parameters of the negative-value run: 10× leverage, 50% barriers. -/
def cexParams : SimParams := ⟨0, 10, 1/2, 1/2, 100, 5, 3⟩

/-- Second day of the calm witness run: 2% drop, no barrier touched. -/
def wBar1 : DailyBar := ⟨1, 98, 98, 98⟩

/-- Witness parameters: 3× leverage, 10% barriers, the app default costs. -/
def wParams : SimParams := ⟨0, 3, 1/10, 1/10, 100, 5, 3⟩

/-- The calm witness run. -/
def wBars : List DailyBar := [cexBar0, wBar1]

/-- Result of the calm witness run. -/
def wRows : List Row := [⟨0, 92, 92, 184⟩, ⟨1, 2162/25, 2438/25, 184⟩]

/-- Second day of the breach witness run: both barriers touched intraday. -/
def brBar1 : DailyBar := ⟨1, 100, 200, 10⟩

/-- The breach witness run. -/
def brBars : List DailyBar := [cexBar0, brBar1]

/-- Result of the breach witness run. -/
def brRows : List Row := [⟨0, 92, 92, 184⟩, ⟨1, 0, 0, 0⟩]

/-- Result of the one-day nonnegativity witness run. -/
def w7Rows : List Row := [⟨0, 92, 92, 184⟩]

/-! ### Lemmas about the engine and the day-by-day loop -/

theorem simulate_eq (df : List DailyBar) (p : SimParams) (b0 : DailyBar)
    (rest : List DailyBar) (h : simBars df p = b0 :: rest) :
    simulate_pair_strategy df p =
      Except.ok (⟨b0.date, net_investment p, net_investment p, net_investment p * 2⟩ ::
        simLoop p.multiplier (b0.close * (1 - p.long_barrier_pct))
          (b0.close * (1 + p.short_barrier_pct)) b0.close
          (net_investment p) (net_investment p) true true rest) := by
  unfold simulate_pair_strategy
  rw [h]

theorem simulate_err (df : List DailyBar) (p : SimParams)
    (h : simBars df p = []) :
    simulate_pair_strategy df p =
      Except.error "No data available from the specified start date." := by
  unfold simulate_pair_strategy
  rw [h]

theorem simLoop_length (m kL kS : ℚ) :
    ∀ (bs : List DailyBar) (c l s : ℚ) (la sa : Bool),
      (simLoop m kL kS c l s la sa bs).length = bs.length := by
  intro bs
  induction bs with
  | nil => intro c l s la sa; rfl
  | cons b bs ih => intro c l s la sa; simp [simLoop, ih]

theorem simLoop_dates (m kL kS : ℚ) :
    ∀ (bs : List DailyBar) (c l s : ℚ) (la sa : Bool),
      (simLoop m kL kS c l s la sa bs).map Row.date = bs.map DailyBar.date := by
  intro bs
  induction bs with
  | nil => intro c l s la sa; rfl
  | cons b bs ih => intro c l s la sa; simp [simLoop, ih]

theorem simLoop_long_dead (m kL kS : ℚ) :
    ∀ (bs : List DailyBar) (c l s : ℚ) (sa : Bool) (i : Nat),
      ((simLoop m kL kS c l s false sa bs).getD i dRow).longValue = 0 := by
  intro bs
  induction bs with
  | nil => intro c l s sa i; simp [simLoop, dRow]
  | cons b bs ih =>
    intro c l s sa i
    cases i with
    | zero => simp [simLoop]
    | succ j =>
      simp only [simLoop, List.getD_cons_succ]
      exact ih b.close _ _ _ j

theorem simLoop_short_dead (m kL kS : ℚ) :
    ∀ (bs : List DailyBar) (c l s : ℚ) (la : Bool) (i : Nat),
      ((simLoop m kL kS c l s la false bs).getD i dRow).shortValue = 0 := by
  intro bs
  induction bs with
  | nil => intro c l s la i; simp [simLoop, dRow]
  | cons b bs ih =>
    intro c l s la i
    cases i with
    | zero => simp [simLoop]
    | succ j =>
      simp only [simLoop, List.getD_cons_succ]
      exact ih b.close _ _ _ j

theorem simLoop_long_breach (m kL kS : ℚ) :
    ∀ (bs : List DailyBar) (c l s : ℚ) (la sa : Bool) (i : Nat),
      i < bs.length → (bs.getD i dBar).low ≤ kL →
      ∀ j, i ≤ j → ((simLoop m kL kS c l s la sa bs).getD j dRow).longValue = 0 := by
  intro bs
  induction bs with
  | nil => intro c l s la sa i hi; simp at hi
  | cons b bs ih =>
    intro c l s la sa i hi hbr j hij
    cases i with
    | zero =>
      simp only [List.getD_cons_zero] at hbr
      cases j with
      | zero =>
        cases la <;> simp [simLoop, hbr]
      | succ j2 =>
        cases la
        · simp only [simLoop, List.getD_cons_succ]
          exact simLoop_long_dead m kL kS bs b.close _ _ _ j2
        · simp only [simLoop, List.getD_cons_succ, hbr, ite_true]
          exact simLoop_long_dead m kL kS bs b.close _ _ _ j2
    | succ i2 =>
      cases j with
      | zero => omega
      | succ j2 =>
        simp only [List.getD_cons_succ] at hbr
        simp only [simLoop, List.getD_cons_succ]
        exact ih b.close _ _ _ _ i2 (by simpa using hi) hbr j2 (by omega)

theorem simLoop_short_breach (m kL kS : ℚ) :
    ∀ (bs : List DailyBar) (c l s : ℚ) (la sa : Bool) (i : Nat),
      i < bs.length → kS ≤ (bs.getD i dBar).high →
      ∀ j, i ≤ j → ((simLoop m kL kS c l s la sa bs).getD j dRow).shortValue = 0 := by
  intro bs
  induction bs with
  | nil => intro c l s la sa i hi; simp at hi
  | cons b bs ih =>
    intro c l s la sa i hi hbr j hij
    cases i with
    | zero =>
      simp only [List.getD_cons_zero] at hbr
      cases j with
      | zero =>
        cases sa <;> simp [simLoop, hbr]
      | succ j2 =>
        cases sa
        · simp only [simLoop, List.getD_cons_succ]
          exact simLoop_short_dead m kL kS bs b.close _ _ _ j2
        · simp only [simLoop, List.getD_cons_succ, hbr, ite_true]
          exact simLoop_short_dead m kL kS bs b.close _ _ _ j2
    | succ i2 =>
      cases j with
      | zero => omega
      | succ j2 =>
        simp only [List.getD_cons_succ] at hbr
        simp only [simLoop, List.getD_cons_succ]
        exact ih b.close _ _ _ _ i2 (by simpa using hi) hbr j2 (by omega)

theorem simLoop_long_head (m kL kS c l s : ℚ) (sa : Bool) (b : DailyBar)
    (bs : List DailyBar) (hb : kL < b.low) :
    ((simLoop m kL kS c l s true sa (b :: bs)).getD 0 dRow).longValue =
      l * (1 + m * (b.close / c - 1)) := by
  simp [simLoop, not_le.mpr hb]

theorem simLoop_short_head (m kL kS c l s : ℚ) (la : Bool) (b : DailyBar)
    (bs : List DailyBar) (hb : b.high < kS) :
    ((simLoop m kL kS c l s la true (b :: bs)).getD 0 dRow).shortValue =
      s * (1 - m * (b.close / c - 1)) := by
  simp [simLoop, not_le.mpr hb]

theorem simLoop_long_step (m kL kS : ℚ) :
    ∀ (bs : List DailyBar) (c l s : ℚ) (sa : Bool) (i : Nat),
      i + 1 < bs.length →
      (∀ j, j ≤ i + 1 → kL < (bs.getD j dBar).low) →
      ((simLoop m kL kS c l s true sa bs).getD (i + 1) dRow).longValue =
        ((simLoop m kL kS c l s true sa bs).getD i dRow).longValue *
          (1 + m * ((bs.getD (i + 1) dBar).close / (bs.getD i dBar).close - 1)) := by
  intro bs
  induction bs with
  | nil => intro c l s sa i hi; simp at hi
  | cons b bs ih =>
    intro c l s sa i hi hnb
    have hb0 : kL < b.low := by simpa using hnb 0 (by omega)
    cases i with
    | zero =>
      cases bs with
      | nil => simp at hi
      | cons b1 bs1 =>
        have hb1 : kL < b1.low := by simpa using hnb 1 (by omega)
        simp [simLoop, not_le.mpr hb0, not_le.mpr hb1]
    | succ i2 =>
      have hlen : i2 + 1 < bs.length := by simpa using hi
      have hnb2 : ∀ j, j ≤ i2 + 1 → kL < (bs.getD j dBar).low := by
        intro j hj
        simpa using hnb (j + 1) (by omega)
      simp only [simLoop, List.getD_cons_succ, not_le.mpr hb0, ite_false]
      exact ih b.close _ _ _ i2 hlen hnb2

theorem simLoop_short_step (m kL kS : ℚ) :
    ∀ (bs : List DailyBar) (c l s : ℚ) (la : Bool) (i : Nat),
      i + 1 < bs.length →
      (∀ j, j ≤ i + 1 → (bs.getD j dBar).high < kS) →
      ((simLoop m kL kS c l s la true bs).getD (i + 1) dRow).shortValue =
        ((simLoop m kL kS c l s la true bs).getD i dRow).shortValue *
          (1 - m * ((bs.getD (i + 1) dBar).close / (bs.getD i dBar).close - 1)) := by
  intro bs
  induction bs with
  | nil => intro c l s la i hi; simp at hi
  | cons b bs ih =>
    intro c l s la i hi hnb
    have hb0 : b.high < kS := by simpa using hnb 0 (by omega)
    cases i with
    | zero =>
      cases bs with
      | nil => simp at hi
      | cons b1 bs1 =>
        have hb1 : b1.high < kS := by simpa using hnb 1 (by omega)
        simp [simLoop, not_le.mpr hb0, not_le.mpr hb1]
    | succ i2 =>
      have hlen : i2 + 1 < bs.length := by simpa using hi
      have hnb2 : ∀ j, j ≤ i2 + 1 → (bs.getD j dBar).high < kS := by
        intro j hj
        simpa using hnb (j + 1) (by omega)
      simp only [simLoop, List.getD_cons_succ, not_le.mpr hb0, ite_false]
      exact ih b.close _ _ _ i2 hlen hnb2

theorem simLoop_short_map (m kS : ℚ) :
    ∀ (bs : List DailyBar) (c s : ℚ) (sa : Bool) (kL1 kL2 l1 l2 : ℚ) (la1 la2 : Bool),
      (simLoop m kL1 kS c l1 s la1 sa bs).map Row.shortValue =
      (simLoop m kL2 kS c l2 s la2 sa bs).map Row.shortValue := by
  intro bs
  induction bs with
  | nil => intros; rfl
  | cons b bs ih =>
    intro c s sa kL1 kL2 l1 l2 la1 la2
    simp only [simLoop, List.map_cons, List.cons.injEq]
    exact ⟨trivial, ih b.close _ _ _ _ _ _ _ _⟩

theorem simLoop_long_map (m kL : ℚ) :
    ∀ (bs : List DailyBar) (c l : ℚ) (la : Bool) (kS1 kS2 s1 s2 : ℚ) (sa1 sa2 : Bool),
      (simLoop m kL kS1 c l s1 la sa1 bs).map Row.longValue =
      (simLoop m kL kS2 c l s2 la sa2 bs).map Row.longValue := by
  intro bs
  induction bs with
  | nil => intros; rfl
  | cons b bs ih =>
    intro c l la kS1 kS2 s1 s2 sa1 sa2
    simp only [simLoop, List.map_cons, List.cons.injEq]
    exact ⟨trivial, ih b.close _ _ _ _ _ _ _ _⟩

theorem simLoop_nonneg (m kL kS : ℚ) :
    ∀ (bs : List DailyBar) (c l s : ℚ) (la sa : Bool),
      0 ≤ l → 0 ≤ s →
      (∀ i, i < bs.length →
        0 ≤ 1 + m * ((bs.getD i dBar).close / prevCloseAt c bs i - 1) ∧
        0 ≤ 1 - m * ((bs.getD i dBar).close / prevCloseAt c bs i - 1)) →
      ∀ i, 0 ≤ ((simLoop m kL kS c l s la sa bs).getD i dRow).longValue ∧
        0 ≤ ((simLoop m kL kS c l s la sa bs).getD i dRow).shortValue := by
  intro bs
  induction bs with
  | nil => intro c l s la sa hl hs hf i; cases i <;> simp [simLoop, dRow]
  | cons b bs ih =>
    intro c l s la sa hl hs hf i
    have hf0 := hf 0 (by simp)
    simp only [prevCloseAt, List.getD_cons_zero] at hf0
    have htrans : ∀ j, j < bs.length →
        0 ≤ 1 + m * ((bs.getD j dBar).close / prevCloseAt b.close bs j - 1) ∧
        0 ≤ 1 - m * ((bs.getD j dBar).close / prevCloseAt b.close bs j - 1) := by
      intro j hj
      have hstep := hf (j + 1) (by simpa using hj)
      cases j with
      | zero => simpa [prevCloseAt] using hstep
      | succ j2 => simpa [prevCloseAt] using hstep
    cases i with
    | zero =>
      constructor
      · cases la
        · simp [simLoop]
        · by_cases hbl : b.low ≤ kL
          · simp [simLoop, hbl]
          · simp only [simLoop, List.getD_cons_zero, hbl, ite_false, ite_true]
            exact mul_nonneg hl hf0.1
      · cases sa
        · simp [simLoop]
        · by_cases hbh : kS ≤ b.high
          · simp [simLoop, hbh]
          · simp only [simLoop, List.getD_cons_zero, hbh, ite_false, ite_true]
            exact mul_nonneg hs hf0.2
    | succ i2 =>
      simp only [simLoop, List.getD_cons_succ]
      refine ih b.close _ _ _ _ ?_ ?_ htrans i2
      · cases la
        · simp
        · by_cases hbl : b.low ≤ kL
          · simp [hbl]
          · simp only [hbl, ite_false, ite_true]
            exact mul_nonneg hl hf0.1
      · cases sa
        · simp
        · by_cases hbh : kS ≤ b.high
          · simp [hbh]
          · simp only [hbh, ite_false, ite_true]
            exact mul_nonneg hs hf0.2

/-- The filtered bars are sorted by date (ascending). -/
theorem simBars_sorted (df : List DailyBar) (p : SimParams) :
    List.Pairwise dateLe (simBars df p) :=
  (List.sorted_insertionSort dateLe df).filter _

/-- Reading a caller row is unaffected by the in-place date conversion. -/
theorem toDailyBar_parseBar (b : RawBar) : toDailyBar (parseBar b) = toDailyBar b := by
  cases b with
  | mk d c h l => cases d <;> rfl

/-- The in-place date conversion is idempotent. -/
theorem parseBar_parseBar (b : RawBar) : parseBar (parseBar b) = parseBar b := by
  cases b with
  | mk d c h l => cases d <;> rfl

/-- With pairwise-distinct dates, any two permutations of the same bars
sort to the same list. -/
theorem sortBars_perm_eq (df1 df2 : List DailyBar) (hperm : df1.Perm df2)
    (hnd : (df1.map DailyBar.date).Nodup) : sortBars df1 = sortBars df2 := by
  have hp1 : (sortBars df1).Perm df1 := List.perm_insertionSort dateLe df1
  have hp2 : (sortBars df2).Perm df2 := List.perm_insertionSort dateLe df2
  have hp : (sortBars df1).Perm (sortBars df2) :=
    hp1.trans (hperm.trans hp2.symm)
  have strict : ∀ l : List DailyBar, (l.map DailyBar.date).Nodup →
      List.Pairwise dateLe l → List.Pairwise dateLt l := by
    intro l hnodup hle
    have hne : List.Pairwise (fun a b : DailyBar => a.date ≠ b.date) l :=
      List.pairwise_map.mp hnodup
    exact (hle.and hne).imp fun hab => lt_of_le_of_ne hab.1 hab.2
  have hnd1 : ((sortBars df1).map DailyBar.date).Nodup :=
    ((hp1.map DailyBar.date).nodup_iff).mpr hnd
  have hnd2 : ((sortBars df2).map DailyBar.date).Nodup :=
    (((hp2.map DailyBar.date).nodup_iff).mpr
      (((hperm.map DailyBar.date).nodup_iff).mp hnd))
  exact List.eq_of_perm_of_sorted hp
    (strict _ hnd1 (List.sorted_insertionSort dateLe df1))
    (strict _ hnd2 (List.sorted_insertionSort dateLe df2))

theorem wRows_ok : simulate_pair_strategy wBars wParams = Except.ok wRows := by
  norm_num [simulate_pair_strategy, simBars, sortBars, List.insertionSort,
    List.orderedInsert, dateLe, net_investment, simLoop, wBars, wRows,
    cexBar0, wBar1, wParams]

theorem brRows_ok : simulate_pair_strategy brBars wParams = Except.ok brRows := by
  norm_num [simulate_pair_strategy, simBars, sortBars, List.insertionSort,
    List.orderedInsert, dateLe, net_investment, simLoop, brBars, brRows,
    cexBar0, brBar1, wParams]

/-! ### Claim theorems -/

/-- C1: on every later day on which a leg has not breached its barrier on
that day nor on any earlier day (so it is still active), the leg's value
is compounded from the previous day's value with the return of
consecutive closes, `(close[i] / close[i-1]) - 1` — with factor
`1 + leverage × return` for the long leg and `1 - leverage × return` for
the short leg; the return never involves the fixed entry price. -/
theorem compounding_recurrence (df : List DailyBar) (p : SimParams)
    (rows : List Row) (hok : simulate_pair_strategy df p = Except.ok rows)
    (i : Nat) (h1 : 1 ≤ i) (hi : i < rows.length) :
    ((∀ j, 1 ≤ j → j ≤ i →
        long_knockout_level df p < ((simBars df p).getD j dBar).low) →
      (rows.getD i dRow).longValue =
        (rows.getD (i - 1) dRow).longValue *
          (1 + p.multiplier *
            (((simBars df p).getD i dBar).close /
              ((simBars df p).getD (i - 1) dBar).close - 1))) ∧
    ((∀ j, 1 ≤ j → j ≤ i →
        ((simBars df p).getD j dBar).high < short_knockout_level df p) →
      (rows.getD i dRow).shortValue =
        (rows.getD (i - 1) dRow).shortValue *
          (1 - p.multiplier *
            (((simBars df p).getD i dBar).close /
              ((simBars df p).getD (i - 1) dBar).close - 1))) := by
  cases h : simBars df p with
  | nil => rw [simulate_err df p h] at hok; cases hok
  | cons b0 rest =>
    have hkL : long_knockout_level df p = b0.close * (1 - p.long_barrier_pct) := by
      simp [long_knockout_level, entry_price, h]
    have hkS : short_knockout_level df p = b0.close * (1 + p.short_barrier_pct) := by
      simp [short_knockout_level, entry_price, h]
    rw [simulate_eq df p b0 rest h] at hok
    cases hok
    rw [hkL, hkS]
    cases i with
    | zero => omega
    | succ i2 =>
      have hi2 : i2 < rest.length := by
        have := simLoop_length p.multiplier (b0.close * (1 - p.long_barrier_pct))
          (b0.close * (1 + p.short_barrier_pct)) rest b0.close
          (net_investment p) (net_investment p) true true
        simp only [List.length_cons, this] at hi
        omega
      constructor
      · intro hnbL
        cases i2 with
        | zero =>
          cases rest with
          | nil => simp at hi2
          | cons b1 rest2 =>
            have hb1 : b0.close * (1 - p.long_barrier_pct) < b1.low := by
              simpa using hnbL 1 (by omega) (by omega)
            simp only [List.getD_cons_succ, List.getD_cons_zero, Nat.sub_self]
            rw [simLoop_long_head _ _ _ _ _ _ _ _ _ hb1]
        | succ i3 =>
          have hnbL2 : ∀ j, j ≤ i3 + 1 →
              b0.close * (1 - p.long_barrier_pct) < (rest.getD j dBar).low := by
            intro j hj
            cases j with
            | zero =>
              simpa using hnbL 1 (by omega) (by omega)
            | succ j2 =>
              simpa using hnbL (j2 + 2) (by omega) (by omega)
          simp only [List.getD_cons_succ, Nat.succ_sub_one]
          exact simLoop_long_step p.multiplier _ _ rest b0.close
            (net_investment p) (net_investment p) true i3 hi2 hnbL2
      · intro hnbS
        cases i2 with
        | zero =>
          cases rest with
          | nil => simp at hi2
          | cons b1 rest2 =>
            have hb1 : b1.high < b0.close * (1 + p.short_barrier_pct) := by
              simpa using hnbS 1 (by omega) (by omega)
            simp only [List.getD_cons_succ, List.getD_cons_zero, Nat.sub_self]
            rw [simLoop_short_head _ _ _ _ _ _ _ _ _ hb1]
        | succ i3 =>
          have hnbS2 : ∀ j, j ≤ i3 + 1 →
              (rest.getD j dBar).high < b0.close * (1 + p.short_barrier_pct) := by
            intro j hj
            cases j with
            | zero =>
              simpa using hnbS 1 (by omega) (by omega)
            | succ j2 =>
              simpa using hnbS (j2 + 2) (by omega) (by omega)
          simp only [List.getD_cons_succ, Nat.succ_sub_one]
          exact simLoop_short_step p.multiplier _ _ rest b0.close
            (net_investment p) (net_investment p) true i3 hi2 hnbS2

/-- C1 witness: on the calm run, day 1 of both legs is the previous value
times the daily factor. -/
theorem compounding_recurrence_witness :
    (wRows.getD 1 dRow).longValue =
      (wRows.getD 0 dRow).longValue *
        (1 + wParams.multiplier *
          (((simBars wBars wParams).getD 1 dBar).close /
            ((simBars wBars wParams).getD 0 dBar).close - 1)) ∧
    (wRows.getD 1 dRow).shortValue =
      (wRows.getD 0 dRow).shortValue *
        (1 - wParams.multiplier *
          (((simBars wBars wParams).getD 1 dBar).close /
            ((simBars wBars wParams).getD 0 dBar).close - 1)) := by
  have h := compounding_recurrence wBars wParams wRows wRows_ok 1 (le_refl 1)
    (by norm_num [wRows])
  simp only [show (1 : Nat) - 1 = 0 from rfl] at h
  refine ⟨h.1 ?_, h.2 ?_⟩
  · intro j hj1 hj2
    have hj : j = 1 := by omega
    subst hj
    norm_num [long_knockout_level, entry_price, simBars, sortBars,
      List.insertionSort, List.orderedInsert, dateLe, wBars, cexBar0, wBar1,
      wParams]
  · intro j hj1 hj2
    have hj : j = 1 := by omega
    subst hj
    norm_num [short_knockout_level, entry_price, simBars, sortBars,
      List.insertionSort, List.orderedInsert, dateLe, wBars, cexBar0, wBar1,
      wParams]

/-- C2: a barrier breach permanently zeroes the leg: if on day `i ≥ 1` the
day's low is at or below the long knockout level, the long leg's reported
value is exactly 0 on day `i` and on every later day of the run; and
symmetrically, if the day's high is at or above the short knockout level,
the short leg's value is 0 from that day on. -/
theorem knockout_absorbing (df : List DailyBar) (p : SimParams)
    (rows : List Row) (hok : simulate_pair_strategy df p = Except.ok rows)
    (i j : Nat) (h1 : 1 ≤ i) (hij : i ≤ j) (hj : j < rows.length) :
    (((simBars df p).getD i dBar).low ≤ long_knockout_level df p →
      (rows.getD j dRow).longValue = 0) ∧
    (short_knockout_level df p ≤ ((simBars df p).getD i dBar).high →
      (rows.getD j dRow).shortValue = 0) := by
  cases h : simBars df p with
  | nil => rw [simulate_err df p h] at hok; cases hok
  | cons b0 rest =>
    have hkL : long_knockout_level df p = b0.close * (1 - p.long_barrier_pct) := by
      simp [long_knockout_level, entry_price, h]
    have hkS : short_knockout_level df p = b0.close * (1 + p.short_barrier_pct) := by
      simp [short_knockout_level, entry_price, h]
    rw [simulate_eq df p b0 rest h] at hok
    cases hok
    rw [hkL, hkS]
    cases i with
    | zero => omega
    | succ i2 =>
      cases j with
      | zero => omega
      | succ j2 =>
        have hj2 : j2 < rest.length := by
          have := simLoop_length p.multiplier (b0.close * (1 - p.long_barrier_pct))
            (b0.close * (1 + p.short_barrier_pct)) rest b0.close
            (net_investment p) (net_investment p) true true
          simp only [List.length_cons, this] at hj
          omega
        have hi2 : i2 < rest.length := by omega
        simp only [List.getD_cons_succ]
        constructor
        · intro hbr
          exact simLoop_long_breach p.multiplier _ _ rest b0.close
            (net_investment p) (net_investment p) true true i2 hi2 hbr j2 (by omega)
        · intro hbr
          exact simLoop_short_breach p.multiplier _ _ rest b0.close
            (net_investment p) (net_investment p) true true i2 hi2 hbr j2 (by omega)

/-- C2 witness: on the breach run both legs report exactly 0 on the
breach day. -/
theorem knockout_absorbing_witness :
    (brRows.getD 1 dRow).longValue = 0 ∧ (brRows.getD 1 dRow).shortValue = 0 := by
  have h := knockout_absorbing brBars wParams brRows brRows_ok 1 1 (le_refl 1)
    (le_refl 1) (by norm_num [brRows])
  refine ⟨h.1 ?_, h.2 ?_⟩
  · norm_num [long_knockout_level, entry_price, simBars, sortBars,
      List.insertionSort, List.orderedInsert, dateLe, brBars, cexBar0, brBar1,
      wParams]
  · norm_num [short_knockout_level, entry_price, simBars, sortBars,
      List.insertionSort, List.orderedInsert, dateLe, brBars, cexBar0, brBar1,
      wParams]

/-- C3: on the entry day (day 0) of every successful run both legs are
initialised to net investment = initial capital − (entry cost + spread)
and the combined value is exactly twice that; no condition on the entry
day's high or low is required (no barrier check happens on day 0). -/
theorem entry_day_initialization (df : List DailyBar) (p : SimParams)
    (rows : List Row) (hok : simulate_pair_strategy df p = Except.ok rows) :
    (rows.getD 0 dRow).longValue = p.initial_investment - (p.entry_cost + p.spread) ∧
    (rows.getD 0 dRow).shortValue = p.initial_investment - (p.entry_cost + p.spread) ∧
    (rows.getD 0 dRow).combinedValue =
      2 * (p.initial_investment - (p.entry_cost + p.spread)) := by
  cases h : simBars df p with
  | nil => rw [simulate_err df p h] at hok; cases hok
  | cons b0 rest =>
    rw [simulate_eq df p b0 rest h] at hok
    cases hok
    refine ⟨rfl, rfl, ?_⟩
    show net_investment p * 2 = _
    rw [net_investment]
    ring

/-- C3 witness: day 0 of the calm run. -/
theorem entry_day_initialization_witness :
    (wRows.getD 0 dRow).longValue =
      wParams.initial_investment - (wParams.entry_cost + wParams.spread) ∧
    (wRows.getD 0 dRow).shortValue =
      wParams.initial_investment - (wParams.entry_cost + wParams.spread) ∧
    (wRows.getD 0 dRow).combinedValue =
      2 * (wParams.initial_investment - (wParams.entry_cost + wParams.spread)) :=
  entry_day_initialization wBars wParams wRows wRows_ok

/-- C4: the engine filters the sorted bars to dates at or after the start
date; it fails with the "no data" error exactly when that filtered
sequence is empty, and returns a result for every non-empty filtered
sequence. -/
theorem empty_filter_error_iff (df : List DailyBar) (p : SimParams) :
    (simulate_pair_strategy df p =
        Except.error "No data available from the specified start date." ↔
      simBars df p = []) ∧
    (simBars df p ≠ [] →
      ∃ rows, simulate_pair_strategy df p = Except.ok rows) := by
  constructor
  · constructor
    · intro he
      cases h : simBars df p with
      | nil => rfl
      | cons b0 rest => rw [simulate_eq df p b0 rest h] at he; cases he
    · intro h
      exact simulate_err df p h
  · intro hne
    cases h : simBars df p with
    | nil => exact absurd h hne
    | cons b0 rest => exact ⟨_, simulate_eq df p b0 rest h⟩

/-- C4 witness: on an empty frame the filtered sequence is empty and the
call fails with the "no data" error. -/
theorem empty_filter_error_iff_witness :
    simulate_pair_strategy [] ⟨0, 3, 1/10, 1/10, 100, 5, 3⟩ =
      Except.error "No data available from the specified start date." :=
  (empty_filter_error_iff [] ⟨0, 3, 1/10, 1/10, 100, 5, 3⟩).1.mpr rfl

/-- C5: a successful result has exactly one row per filtered input day,
its dates are exactly the filtered input's dates in the same order, and
that order is ascending. -/
theorem result_shape (df : List DailyBar) (p : SimParams)
    (rows : List Row) (hok : simulate_pair_strategy df p = Except.ok rows) :
    rows.length = (simBars df p).length ∧
    rows.map Row.date = (simBars df p).map DailyBar.date ∧
    List.Pairwise (fun a b : Int => a ≤ b) (rows.map Row.date) := by
  have hdates : rows.map Row.date = (simBars df p).map DailyBar.date := by
    cases h : simBars df p with
    | nil => rw [simulate_err df p h] at hok; cases hok
    | cons b0 rest =>
      rw [simulate_eq df p b0 rest h] at hok
      cases hok
      simp [simLoop_dates]
  refine ⟨?_, hdates, ?_⟩
  · have hlen := congrArg List.length hdates
    simpa using hlen
  · rw [hdates]
    exact List.pairwise_map.mpr (simBars_sorted df p)

/-- C5 witness: shape of the calm run's result. -/
theorem result_shape_witness :
    wRows.length = (simBars wBars wParams).length ∧
    wRows.map Row.date = (simBars wBars wParams).map DailyBar.date ∧
    List.Pairwise (fun a b : Int => a ≤ b) (wRows.map Row.date) :=
  result_shape wBars wParams wRows wRows_ok

/-- C6: the two legs are independent.  Changing only the long barrier
fraction leaves the short leg's whole value trajectory unchanged, and
changing only the short barrier fraction leaves the long leg's whole
value trajectory unchanged. -/
theorem legs_independent (df : List DailyBar) (p : SimParams) (x y : ℚ) :
    (okRows (simulate_pair_strategy df
        { p with long_barrier_pct := x })).map Row.shortValue =
      (okRows (simulate_pair_strategy df
        { p with long_barrier_pct := y })).map Row.shortValue ∧
    (okRows (simulate_pair_strategy df
        { p with short_barrier_pct := x })).map Row.longValue =
      (okRows (simulate_pair_strategy df
        { p with short_barrier_pct := y })).map Row.longValue := by
  constructor
  · cases h : simBars df p with
    | nil =>
      rw [simulate_err df { p with long_barrier_pct := x } h,
        simulate_err df { p with long_barrier_pct := y } h]
    | cons b0 rest =>
      rw [simulate_eq df { p with long_barrier_pct := x } b0 rest h,
        simulate_eq df { p with long_barrier_pct := y } b0 rest h]
      simp only [okRows, List.map_cons, List.cons.injEq]
      exact ⟨rfl, simLoop_short_map p.multiplier
        (b0.close * (1 + p.short_barrier_pct)) rest b0.close
        (net_investment p) true _ _ _ _ true true⟩
  · cases h : simBars df p with
    | nil =>
      rw [simulate_err df { p with short_barrier_pct := x } h,
        simulate_err df { p with short_barrier_pct := y } h]
    | cons b0 rest =>
      rw [simulate_eq df { p with short_barrier_pct := x } b0 rest h,
        simulate_eq df { p with short_barrier_pct := y } b0 rest h]
      simp only [okRows, List.map_cons, List.cons.injEq]
      exact ⟨rfl, simLoop_long_map p.multiplier
        (b0.close * (1 - p.long_barrier_pct)) rest b0.close
        (net_investment p) true _ _ _ _ true true⟩

/-- C7 counterexample: with 10× leverage and a 15% one-day drop that does
not touch the 50% barrier, the long leg's reported value is negative
(92 × (1 + 10 × (−0.15)) = −46 < 0), so leg values are not always ≥ 0. -/
theorem leg_value_negative_cex :
    ((okRows (simulate_pair_strategy [cexBar0, cexBar1] cexParams)).getD 1
      dRow).longValue < 0 := by
  norm_num [simulate_pair_strategy, simBars, sortBars, okRows, simLoop,
    net_investment, cexParams, cexBar0, cexBar1, List.insertionSort,
    List.orderedInsert, dateLe]

/-- C7 amended: no floor is applied, so a leg's value can go negative; it
is non-negative on every day provided the net investment is non-negative
and no single day's leveraged move exceeds 100% (both daily factors
`1 ± leverage × return` stay non-negative). -/
theorem leg_values_nonneg_amended (df : List DailyBar) (p : SimParams)
    (rows : List Row) (hok : simulate_pair_strategy df p = Except.ok rows)
    (hnet : 0 ≤ net_investment p)
    (hfac : ∀ k, 1 ≤ k → k < (simBars df p).length →
      0 ≤ 1 + p.multiplier * (((simBars df p).getD k dBar).close /
        ((simBars df p).getD (k - 1) dBar).close - 1) ∧
      0 ≤ 1 - p.multiplier * (((simBars df p).getD k dBar).close /
        ((simBars df p).getD (k - 1) dBar).close - 1))
    (i : Nat) :
    0 ≤ (rows.getD i dRow).longValue ∧ 0 ≤ (rows.getD i dRow).shortValue := by
  cases h : simBars df p with
  | nil => rw [simulate_err df p h] at hok; cases hok
  | cons b0 rest =>
    rw [h] at hfac
    rw [simulate_eq df p b0 rest h] at hok
    cases hok
    have hfac2 : ∀ k, k < rest.length →
        0 ≤ 1 + p.multiplier *
          ((rest.getD k dBar).close / prevCloseAt b0.close rest k - 1) ∧
        0 ≤ 1 - p.multiplier *
          ((rest.getD k dBar).close / prevCloseAt b0.close rest k - 1) := by
      intro k hk
      have hstep := hfac (k + 1) (by omega) (by simp; omega)
      cases k with
      | zero => simpa [prevCloseAt] using hstep
      | succ k2 => simpa [prevCloseAt] using hstep
    cases i with
    | zero => exact ⟨hnet, hnet⟩
    | succ i2 =>
      simp only [List.getD_cons_succ]
      exact simLoop_nonneg p.multiplier _ _ rest b0.close
        (net_investment p) (net_investment p) true true hnet hnet hfac2 i2

/-- C7 witness (amended claim): a run satisfying the factor conditions
has non-negative leg values. -/
theorem leg_values_nonneg_amended_witness :
    0 ≤ (w7Rows.getD 0 dRow).longValue ∧ 0 ≤ (w7Rows.getD 0 dRow).shortValue := by
  refine leg_values_nonneg_amended [cexBar0] cexParams w7Rows ?_ ?_ ?_ 0
  · norm_num [simulate_pair_strategy, simBars, sortBars, List.insertionSort,
      List.orderedInsert, dateLe, net_investment, simLoop, w7Rows, cexBar0,
      cexParams]
  · norm_num [net_investment, cexParams]
  · intro k hk1 hk2
    exfalso
    simp [simBars, sortBars, List.insertionSort, List.orderedInsert, dateLe,
      cexBar0, cexParams] at hk2
    omega

/-- C8 counterexample: the caller's input frame is mutated — after a call
on a frame whose Date column is still raw, the frame holds converted
dates, so it is no longer equal to the input. -/
theorem purity_cex :
    (simulate_pair_strategy_call [⟨RDate.raw 0, 100, 100, 100⟩]
        cexParams).2 ≠ [⟨RDate.raw 0, 100, 100, 100⟩] := by
  simp [simulate_pair_strategy_call, parseBar, parseDate]

/-- C8 amended: the call is deterministic in the values of its input but
mutates the caller's Date column in place; a second call on the mutated
frame returns an identical result and changes nothing further. -/
theorem call_idempotent (df : List RawBar) (p : SimParams) :
    simulate_pair_strategy_call ((simulate_pair_strategy_call df p).2) p =
      simulate_pair_strategy_call df p := by
  simp [simulate_pair_strategy_call, List.map_map, Function.comp_def,
    toDailyBar_parseBar, parseBar_parseBar]

/-- C9 counterexample: at the app's default costs (capital 100, entry
cost 5, spread 3) the plotted "in the money" line is
2 × (100 + (5 + 3)) = 216, not 2 × (100 − (5 + 3)) = 184. -/
theorem display_constants_cex :
    in_the_money_value 100 5 3 ≠ 2 * ((100 : ℚ) - (5 + 3)) := by
  norm_num [in_the_money_value]

/-- C9 amended: the knockout display lines match the stated formulas, but
the "in the money" reference line is
2 × (initial capital per leg + (entry cost + spread)), which exceeds
twice the net investment by four times the per-leg costs. -/
theorem display_constants_amended (p : SimParams) :
    long_knockout_norm p.initial_investment p.long_barrier_pct =
      p.initial_investment * (1 - p.long_barrier_pct) ∧
    short_knockout_norm p.initial_investment p.short_barrier_pct =
      p.initial_investment * (1 + p.short_barrier_pct) ∧
    in_the_money_value p.initial_investment p.entry_cost p.spread =
      2 * net_investment p + 4 * (p.entry_cost + p.spread) := by
  refine ⟨rfl, rfl, ?_⟩
  rw [in_the_money_value, net_investment]
  ring

/-- C10: the result is invariant under any permutation of the input rows
(the engine sorts by date first), provided the bars carry pairwise
distinct dates, as the data model guarantees. -/
theorem perm_invariant (df1 df2 : List DailyBar) (p : SimParams)
    (hperm : df1.Perm df2) (hnd : (df1.map DailyBar.date).Nodup) :
    simulate_pair_strategy df1 p = simulate_pair_strategy df2 p := by
  have hs : sortBars df1 = sortBars df2 := sortBars_perm_eq df1 df2 hperm hnd
  unfold simulate_pair_strategy simBars
  rw [hs]

/-- C10 witness: swapping the two rows of the calm run's input changes
nothing. -/
theorem perm_invariant_witness :
    simulate_pair_strategy [wBar1, cexBar0] wParams =
      simulate_pair_strategy [cexBar0, wBar1] wParams :=
  perm_invariant [wBar1, cexBar0] [cexBar0, wBar1] wParams
    (List.Perm.swap cexBar0 wBar1 []) (by decide)
